import Mathlib

/-!
Verification of the TMotorControl-API core against its specification.

The shallow embedding below translates the Python source:
- TrajectoryGenerator (src/TMotorAPI.py): pure functions over exact rational
  arithmetic; a Python ZeroDivisionError is modelled by returning none.
- smooth_transition (demos/demo_ergo_test.py): the cosine-blended dual-zone
  torque profile over the reals.
- Motor (src/TMotorAPI.py, v3.1): explicit state passing; the external
  TMotorManager driver is modelled as a staged-command record plus an
  oracle of feedback reads (none = transient communication failure).
-/

namespace TMotor

/-- Control loop period, 1/100 s (CONTROL_LOOP_PERIOD in the source). -/
def CONTROL_LOOP_PERIOD : ℚ := 1 / 100

/-- Step command threshold, 0.02 s (STEP_COMMAND_THRESHOLD in the source). -/
def STEP_COMMAND_THRESHOLD : ℚ := 2 / 100

/-- TrajectoryGenerator.minimum_jerk. Returns none exactly when Python would
raise ZeroDivisionError (division branch reached with totalDuration = 0). -/
def minimum_jerk (startPos endPos currentTime totalDuration : ℚ) :
    Option (ℚ × ℚ) :=
  if currentTime ≥ totalDuration then some (endPos, 0)
  else if totalDuration = 0 then none
  else
    let tau := currentTime / totalDuration
    let posDelta := endPos - startPos
    let s := 10 * tau ^ 3 - 15 * tau ^ 4 + 6 * tau ^ 5
    let sDot := (30 * tau ^ 2 - 60 * tau ^ 3 + 30 * tau ^ 4) / totalDuration
    some (startPos + posDelta * s, posDelta * sDot)

/-- TrajectoryGenerator.cubic. -/
def cubic (startPos endPos currentTime totalDuration : ℚ) : Option (ℚ × ℚ) :=
  if currentTime ≥ totalDuration then some (endPos, 0)
  else if totalDuration = 0 then none
  else
    let tau := currentTime / totalDuration
    let posDelta := endPos - startPos
    let s := -2 * tau ^ 3 + 3 * tau ^ 2
    let sDot := (-6 * tau ^ 2 + 6 * tau) / totalDuration
    some (startPos + posDelta * s, posDelta * sDot)

/-- TrajectoryGenerator.linear. -/
def linear (startPos endPos currentTime totalDuration : ℚ) : Option (ℚ × ℚ) :=
  if currentTime ≥ totalDuration then some (endPos, 0)
  else if totalDuration = 0 then none
  else
    let posDelta := endPos - startPos
    let velocity := posDelta / totalDuration
    some (startPos + velocity * currentTime, velocity)

/-- Claim C2: for every startPos, endPos, totalDuration > 0 and every
currentTime at or past totalDuration, each of the three trajectory profiles
returns exactly (endPos, 0): the terminal clamp fires. -/
theorem trajectory_terminal_clamp (s e T t : ℚ) (hT : 0 < T) (ht : T ≤ t) :
    minimum_jerk s e t T = some (e, 0) ∧ cubic s e t T = some (e, 0) ∧
      linear s e t T = some (e, 0) := by
  refine ⟨?_, ?_, ?_⟩ <;> simp [minimum_jerk, cubic, linear, ht]

/-- Closed instance of trajectory_terminal_clamp at T = 2, t = 3. -/
theorem trajectory_terminal_clamp_inst :
    minimum_jerk 0 5 3 2 = some (5, 0) ∧ cubic 0 5 3 2 = some (5, 0) ∧
      linear 0 5 3 2 = some (5, 0) :=
  trajectory_terminal_clamp 0 5 2 3 (by norm_num) (by norm_num)

/-- Claim C5: inside the motion interval, minimum_jerk returns the quintic
position fraction and its scaled derivative; in particular at
(0, 1.5708, 1.0, 2.0) the position is exactly 0.7854 and the velocity
1.472625, within 0.001 of the specified 1.4726. -/
theorem minimum_jerk_formula :
    (∀ s e t T : ℚ, 0 < T → 0 ≤ t → t < T →
      minimum_jerk s e t T =
        some (s + (e - s) *
            (10 * (t / T) ^ 3 - 15 * (t / T) ^ 4 + 6 * (t / T) ^ 5),
          (e - s) *
            ((30 * (t / T) ^ 2 - 60 * (t / T) ^ 3 + 30 * (t / T) ^ 4) / T))) ∧
    minimum_jerk 0 1.5708 1 2 = some (0.7854, 1.472625) ∧
    |(1.472625 : ℚ) - 1.4726| < 1 / 1000 := by
  refine ⟨?_, ?_, by rw [abs_sub_lt_iff]; norm_num⟩
  · intro s e t T hT h0 htT
    simp [minimum_jerk, not_le.2 htT, hT.ne']
  · simp [minimum_jerk]
    norm_num

/-- Closed instance of the minimum_jerk formula at (0, 1, 1, 2). -/
theorem minimum_jerk_formula_inst :
    minimum_jerk 0 1 1 2 =
      some (0 + (1 - 0) *
          (10 * ((1 : ℚ) / 2) ^ 3 - 15 * ((1 : ℚ) / 2) ^ 4 +
            6 * ((1 : ℚ) / 2) ^ 5),
        (1 - 0) *
          ((30 * ((1 : ℚ) / 2) ^ 2 - 60 * ((1 : ℚ) / 2) ^ 3 +
            30 * ((1 : ℚ) / 2) ^ 4) / 2)) :=
  minimum_jerk_formula.1 0 1 1 2 (by norm_num) (by norm_num) (by norm_num)

/-- Claim C6 counterexample: with totalDuration = 0 and currentTime = 0 ≥ 0
no division by zero happens; the terminal clamp fires first and each
generator returns some (endPos, 0), not an error. -/
theorem trajectory_zero_duration_no_division :
    minimum_jerk 0 1 0 0 = some (1, 0) ∧ cubic 0 1 0 0 = some (1, 0) ∧
      linear 0 1 0 0 = some (1, 0) := by
  refine ⟨?_, ?_, ?_⟩ <;> rfl

/-- Claim C6 (amended): with totalDuration = 0, for every currentTime ≥ 0 the
terminal clamp fires first and each generator returns (endPos, 0) without
dividing; the division by zero occurs only for currentTime < 0. -/
theorem trajectory_zero_duration_clamp (s e t : ℚ) :
    (0 ≤ t →
      minimum_jerk s e t 0 = some (e, 0) ∧ cubic s e t 0 = some (e, 0) ∧
        linear s e t 0 = some (e, 0)) ∧
    (t < 0 →
      minimum_jerk s e t 0 = none ∧ cubic s e t 0 = none ∧
        linear s e t 0 = none) := by
  constructor
  · intro h0
    refine ⟨?_, ?_, ?_⟩ <;> simp [minimum_jerk, cubic, linear, h0]
  · intro hneg
    refine ⟨?_, ?_, ?_⟩ <;> simp [minimum_jerk, cubic, linear, not_le.2 hneg]

/-- Closed instance of trajectory_zero_duration_clamp at t = 1 and t = -1. -/
theorem trajectory_zero_duration_clamp_inst :
    minimum_jerk 0 7 1 0 = some (7, 0) ∧ minimum_jerk 0 7 (-1) 0 = none :=
  ⟨((trajectory_zero_duration_clamp 0 7 1).1 (by norm_num)).1,
    ((trajectory_zero_duration_clamp 0 7 (-1)).2 (by norm_num)).1⟩

/-- Feedback snapshot: last values read from the actuator. -/
structure Feedback where
  position : ℚ
  velocity : ℚ
  torque : ℚ
  temperature : ℚ
deriving DecidableEq, Repr

/-- The gain defaults of MotorConfig used by the control methods. -/
structure MotorConfig where
  defaultKp : ℚ := 10
  defaultKd : ℚ := 1 / 2
deriving DecidableEq, Repr

/-- Mutable state of the Motor object: enabled flag, manager presence and
the last-observed feedback snapshot fields. -/
structure MotorState where
  config : MotorConfig
  isEnabled : Bool
  hasManager : Bool
  lastPosition : ℚ := 0
  lastVelocity : ℚ := 0
  lastTorque : ℚ := 0
  lastTemperature : ℚ := 0
deriving DecidableEq, Repr

/-- State of the external TMotorManager driver: armed impedance gains and the
last staged position/velocity/torque command values. -/
structure DriverState where
  gainK : ℚ
  gainB : ℚ
  cmdPosition : ℚ
  cmdVelocity : ℚ
  cmdTorque : ℚ
deriving DecidableEq, Repr

/-- Errors raised by the Motor methods: the not-enabled RuntimeError and the
ValueError for an unknown trajectory type. -/
inductive MotorError where
  | notEnabled
  | unknownTrajectoryType
  | divisionByZero
deriving DecidableEq, Repr

/-- The feedback snapshot currently stored in the motor state. -/
def snapshot (m : MotorState) : Feedback :=
  ⟨m.lastPosition, m.lastVelocity, m.lastTorque, m.lastTemperature⟩

/-- Motor.update. The driver round-trip (manager.update plus the property
reads) is modelled as one oracle value: some fb on success, none on a
transient communication failure, which the source catches and absorbs. -/
def update (m : MotorState) (read : Option Feedback) :
    MotorState × Except MotorError Feedback :=
  if m.isEnabled && m.hasManager then
    match read with
    | some fb =>
        ({ m with lastPosition := fb.position, lastVelocity := fb.velocity,
                  lastTorque := fb.torque, lastTemperature := fb.temperature },
          .ok fb)
    | none => (m, .ok (snapshot m))
  else (m, .error .notEnabled)

/-- Motor.disable. powerOffFails records whether the driver power-off call
(manager.__exit__) raises; the source catches the exception, so the
isEnabled := false assignment after it is skipped in that case. -/
def disable (m : MotorState) (powerOffFails : Bool) : MotorState :=
  if m.hasManager && m.isEnabled then
    if powerOffFails then m else { m with isEnabled := false }
  else m

/-- Trajectory-profile dispatch table of Motor.track_trajectory. -/
def trajFuncOf (trajectoryType : String) :
    Option (ℚ → ℚ → ℚ → ℚ → Option (ℚ × ℚ)) :=
  if trajectoryType = "minimum_jerk" then some minimum_jerk
  else if trajectoryType = "cubic" then some cubic
  else if trajectoryType = "linear" then some linear
  else none

/-- The while loop of the trajectory-following mode: sampleTimes are the
wall-clock elapsed times observed at each loop head, i indexes the feedback
oracle. On loop exit the exact goal is written as a final command. -/
def trajLoop (f : ℚ → ℚ → ℚ → ℚ → Option (ℚ × ℚ))
    (startPos targetPos duration : ℚ) (reads : ℕ → Option Feedback) :
    List ℚ → ℕ → MotorState → DriverState →
      MotorState × DriverState × Except MotorError Unit
  | [], i, m, d =>
      let d' := { d with cmdPosition := targetPos, cmdVelocity := 0,
                         cmdTorque := 0 }
      ((update m (reads i)).1, d', .ok ())
  | t :: ts, i, m, d =>
      if duration ≤ t then
        let d' := { d with cmdPosition := targetPos, cmdVelocity := 0,
                           cmdTorque := 0 }
        ((update m (reads i)).1, d', .ok ())
      else
        match f startPos targetPos t duration with
        | none => (m, d, .error .divisionByZero)
        | some (p, v) =>
            let d' := { d with cmdPosition := p, cmdVelocity := v,
                               cmdTorque := 0 }
            trajLoop f startPos targetPos duration reads ts (i + 1)
              (update m (reads i)).1 d'

/-- Motor.track_trajectory (v3.1): guard, set impedance gains, then either
the single-shot step branch (duration at or below the threshold) or the
trajectory-following loop after validating trajectoryType. -/
def track_trajectory (m : MotorState) (d : DriverState)
    (targetPos duration : ℚ) (kp? kd? : Option ℚ) (trajectoryType : String)
    (sampleTimes : List ℚ) (reads : ℕ → Option Feedback) :
    MotorState × DriverState × Except MotorError Unit :=
  if m.isEnabled && m.hasManager then
    let kp := kp?.getD m.config.defaultKp
    let kd := kd?.getD m.config.defaultKd
    let d1 := { d with gainK := kp, gainB := kd }
    if duration ≤ STEP_COMMAND_THRESHOLD then
      let d2 := { d1 with cmdPosition := targetPos, cmdVelocity := 0,
                          cmdTorque := 0 }
      ((update m (reads 0)).1, d2, .ok ())
    else
      match trajFuncOf trajectoryType with
      | none => (m, d1, .error .unknownTrajectoryType)
      | some f =>
          trajLoop f m.lastPosition targetPos duration reads sampleTimes 0 m d1
  else (m, d, .error .notEnabled)

/-- The hold loop of Motor.set_velocity: each tick re-stages the current
last position with the target velocity and updates. -/
def velLoop (targetVel : ℚ) (reads : ℕ → Option Feedback) :
    ℕ → ℕ → MotorState → DriverState → MotorState × DriverState
  | 0, i, m, d =>
      let d' := { d with cmdPosition := m.lastPosition, cmdVelocity := 0,
                         cmdTorque := 0 }
      ((update m (reads i)).1, d')
  | Nat.succ n, i, m, d =>
      let d' := { d with cmdPosition := m.lastPosition,
                         cmdVelocity := targetVel, cmdTorque := 0 }
      velLoop targetVel reads n (i + 1) (update m (reads i)).1 d'

/-- Motor.set_velocity: guard, arm gains (K = 0, B = kd), then either one
command or a hold loop of ticks iterations followed by a zero-velocity stop. -/
def set_velocity (m : MotorState) (d : DriverState) (targetVel : ℚ)
    (kd? : Option ℚ) (duration : ℚ) (ticks : ℕ) (reads : ℕ → Option Feedback) :
    MotorState × DriverState × Except MotorError Unit :=
  if m.isEnabled && m.hasManager then
    let kd := kd?.getD m.config.defaultKd
    let d1 := { d with gainK := 0, gainB := kd }
    if duration ≤ 0 then
      let d2 := { d1 with cmdPosition := m.lastPosition,
                          cmdVelocity := targetVel, cmdTorque := 0 }
      ((update m (reads 0)).1, d2, .ok ())
    else
      let (m', d') := velLoop targetVel reads ticks 0 m d1
      (m', d', .ok ())
  else (m, d, .error .notEnabled)

/-- The hold loop of Motor.set_torque; on exit only the torque command is
zeroed before the final update, matching the source. -/
def torLoop (targetTorque : ℚ) (reads : ℕ → Option Feedback) :
    ℕ → ℕ → MotorState → DriverState → MotorState × DriverState
  | 0, i, m, d =>
      let d' := { d with cmdTorque := 0 }
      ((update m (reads i)).1, d')
  | Nat.succ n, i, m, d =>
      let d' := { d with cmdPosition := m.lastPosition, cmdVelocity := 0,
                         cmdTorque := targetTorque }
      torLoop targetTorque reads n (i + 1) (update m (reads i)).1 d'

/-- Motor.set_torque: guard, arm zero gains, then either one torque command
or a hold loop followed by a zero-torque stop. -/
def set_torque (m : MotorState) (d : DriverState) (targetTorque duration : ℚ)
    (ticks : ℕ) (reads : ℕ → Option Feedback) :
    MotorState × DriverState × Except MotorError Unit :=
  if m.isEnabled && m.hasManager then
    let d1 := { d with gainK := 0, gainB := 0 }
    if duration ≤ 0 then
      let d2 := { d1 with cmdPosition := m.lastPosition, cmdVelocity := 0,
                          cmdTorque := targetTorque }
      ((update m (reads 0)).1, d2, .ok ())
    else
      let (m', d') := torLoop targetTorque reads ticks 0 m d1
      (m', d', .ok ())
  else (m, d, .error .notEnabled)

/-- Motor.send_command: guard, arm the given gains, stage position, velocity
and feedforward torque, update once. -/
def send_command (m : MotorState) (d : DriverState)
    (targetPos targetVel kp kd feedforwardTorque : ℚ)
    (read : Option Feedback) :
    MotorState × DriverState × Except MotorError Unit :=
  if m.isEnabled && m.hasManager then
    let d1 := { d with gainK := kp, gainB := kd, cmdPosition := targetPos,
                       cmdVelocity := targetVel, cmdTorque := feedforwardTorque }
    ((update m read).1, d1, .ok ())
  else (m, d, .error .notEnabled)

/-- Claim C7: while powered, a transient read failure is absorbed: update
returns ok with the last-known snapshot and the state is unchanged; the
snapshot is only ever overwritten as a whole, on a fully successful read. -/
theorem update_transient_failure_preserves_snapshot (m : MotorState)
    (hEn : m.isEnabled = true) (hMgr : m.hasManager = true) :
    update m none = (m, .ok (snapshot m)) ∧
    ∀ fb : Feedback,
      update m (some fb) =
        ({ m with lastPosition := fb.position, lastVelocity := fb.velocity,
                  lastTorque := fb.torque, lastTemperature := fb.temperature },
          .ok fb) := by
  constructor
  · simp [update, hEn, hMgr]
  · intro fb
    simp [update, hEn, hMgr]

/-- Closed instance of update_transient_failure_preserves_snapshot. -/
theorem update_transient_failure_inst :
    update ⟨⟨10, 1 / 2⟩, true, true, 3, 0, 0, 25⟩ none =
      (⟨⟨10, 1 / 2⟩, true, true, 3, 0, 0, 25⟩, .ok ⟨3, 0, 0, 25⟩) :=
  (update_transient_failure_preserves_snapshot
    ⟨⟨10, 1 / 2⟩, true, true, 3, 0, 0, 25⟩ rfl rfl).1

/-- Claim C8 counterexample: from a powered state, when the driver power-off
call fails the caught exception skips the flag-clearing assignment, so the
session is still enabled after disable, contradicting the claim that the
armed/enabled flag is cleared even when the Driver power-off call fails. -/
theorem disable_failure_keeps_enabled_flag :
    (disable ⟨⟨10, 1 / 2⟩, true, true, 0, 0, 0, 0⟩ true).isEnabled = true :=
  rfl

/-- Claim C8 (amended): disable never propagates driver power-off errors;
while UNPOWERED it is a no-op; on a successful power-off the enabled flag is
cleared; when the power-off call fails the state is left unchanged, with the
enabled flag still set. -/
theorem disable_behavior (m : MotorState) (hMgr : m.hasManager = true) :
    (m.isEnabled = false → ∀ f, disable m f = m) ∧
    (m.isEnabled = true →
      disable m false = { m with isEnabled := false } ∧ disable m true = m) := by
  constructor
  · intro hE f
    simp [disable, hE]
  · intro hE
    constructor <;> simp [disable, hE, hMgr]

/-- Closed instance of disable_behavior: successful power-off clears the
flag, and disable on an unpowered session is a no-op. -/
theorem disable_behavior_inst :
    disable ⟨⟨10, 1 / 2⟩, true, true, 0, 0, 0, 0⟩ false =
      ⟨⟨10, 1 / 2⟩, false, true, 0, 0, 0, 0⟩ ∧
    disable ⟨⟨10, 1 / 2⟩, false, true, 0, 0, 0, 0⟩ true =
      ⟨⟨10, 1 / 2⟩, false, true, 0, 0, 0, 0⟩ :=
  ⟨((disable_behavior ⟨⟨10, 1 / 2⟩, true, true, 0, 0, 0, 0⟩ rfl).2 rfl).1,
    (disable_behavior ⟨⟨10, 1 / 2⟩, false, true, 0, 0, 0, 0⟩ rfl).1 rfl true⟩

/-- Claim C9: while UNPOWERED, update, track_trajectory, set_velocity,
set_torque and send_command each fail with the not-enabled error and leave
both the session state and the driver state unchanged. -/
theorem commands_require_enabled (m : MotorState) (d : DriverState)
    (hE : m.isEnabled = false) (r : Option Feedback)
    (targetPos duration targetVel targetTorque kp kd ff : ℚ)
    (kp? kd? : Option ℚ) (trajectoryType : String) (sampleTimes : List ℚ)
    (ticks : ℕ) (reads : ℕ → Option Feedback) :
    update m r = (m, .error .notEnabled) ∧
    track_trajectory m d targetPos duration kp? kd? trajectoryType sampleTimes
        reads = (m, d, .error .notEnabled) ∧
    set_velocity m d targetVel kd? duration ticks reads =
      (m, d, .error .notEnabled) ∧
    set_torque m d targetTorque duration ticks reads =
      (m, d, .error .notEnabled) ∧
    send_command m d targetPos targetVel kp kd ff r =
      (m, d, .error .notEnabled) := by
  refine ⟨?_, ?_, ?_, ?_, ?_⟩ <;>
    simp [update, track_trajectory, set_velocity, set_torque, send_command, hE]

/-- Closed instance of commands_require_enabled on an unpowered session. -/
theorem commands_require_enabled_inst :
    update ⟨⟨10, 1 / 2⟩, false, true, 0, 0, 0, 0⟩ none =
      (⟨⟨10, 1 / 2⟩, false, true, 0, 0, 0, 0⟩, .error .notEnabled) ∧
    set_torque ⟨⟨10, 1 / 2⟩, false, true, 0, 0, 0, 0⟩ ⟨0, 0, 0, 0, 0⟩ 1 0 0
        (fun _ => none) =
      (⟨⟨10, 1 / 2⟩, false, true, 0, 0, 0, 0⟩, ⟨0, 0, 0, 0, 0⟩,
        .error .notEnabled) :=
  ⟨(commands_require_enabled ⟨⟨10, 1 / 2⟩, false, true, 0, 0, 0, 0⟩
      ⟨0, 0, 0, 0, 0⟩ rfl none 0 0 0 1 0 0 0 none none "minimum_jerk" [] 0
      (fun _ => none)).1,
    ((((commands_require_enabled ⟨⟨10, 1 / 2⟩, false, true, 0, 0, 0, 0⟩
      ⟨0, 0, 0, 0, 0⟩ rfl none 0 0 0 1 0 0 0 none none "minimum_jerk" [] 0
      (fun _ => none)).2).2).2).1⟩

/-- Claim C10: with duration above the step threshold and an unknown
trajectoryType, track_trajectory fails with ValueError only after the
impedance gains were already armed in the driver; with duration at or below
the threshold the invalid trajectoryType is ignored and the step executes. -/
theorem track_trajectory_gains_before_validation (m : MotorState)
    (d : DriverState) (targetPos duration : ℚ) (kp? kd? : Option ℚ)
    (trajectoryType : String) (sampleTimes : List ℚ)
    (reads : ℕ → Option Feedback) (hEn : m.isEnabled = true)
    (hMgr : m.hasManager = true) :
    (STEP_COMMAND_THRESHOLD < duration → trajectoryType ≠ "minimum_jerk" →
      trajectoryType ≠ "cubic" → trajectoryType ≠ "linear" →
      track_trajectory m d targetPos duration kp? kd? trajectoryType
          sampleTimes reads =
        (m, { d with gainK := kp?.getD m.config.defaultKp,
                     gainB := kd?.getD m.config.defaultKd },
          .error .unknownTrajectoryType)) ∧
    (duration ≤ STEP_COMMAND_THRESHOLD →
      track_trajectory m d targetPos duration kp? kd? trajectoryType
          sampleTimes reads =
        ((update m (reads 0)).1,
          { d with gainK := kp?.getD m.config.defaultKp,
                   gainB := kd?.getD m.config.defaultKd,
                   cmdPosition := targetPos, cmdVelocity := 0, cmdTorque := 0 },
          .ok ())) := by
  constructor
  · intro hdur h1 h2 h3
    simp [track_trajectory, hEn, hMgr, not_le.2 hdur, trajFuncOf, h1, h2, h3]
  · intro hdur
    simp [track_trajectory, hEn, hMgr, hdur]

/-- Closed instance of track_trajectory_gains_before_validation: an invalid
type errors after arming gains when duration is 1, and is ignored by the
step branch when duration is 0. -/
theorem track_trajectory_gains_before_validation_inst :
    track_trajectory ⟨⟨10, 1 / 2⟩, true, true, 0, 0, 0, 0⟩ ⟨0, 0, 0, 0, 0⟩ 1 1
        none none "bogus" [] (fun _ => none) =
      (⟨⟨10, 1 / 2⟩, true, true, 0, 0, 0, 0⟩, ⟨10, 1 / 2, 0, 0, 0⟩,
        .error .unknownTrajectoryType) ∧
    track_trajectory ⟨⟨10, 1 / 2⟩, true, true, 0, 0, 0, 0⟩ ⟨0, 0, 0, 0, 0⟩ 1 0
        none none "bogus" [] (fun _ => none) =
      (⟨⟨10, 1 / 2⟩, true, true, 0, 0, 0, 0⟩, ⟨10, 1 / 2, 1, 0, 0⟩, .ok ()) := by
  constructor
  · exact (track_trajectory_gains_before_validation
      ⟨⟨10, 1 / 2⟩, true, true, 0, 0, 0, 0⟩ ⟨0, 0, 0, 0, 0⟩ 1 1 none none
      "bogus" [] (fun _ => none) rfl rfl).1 (by norm_num [STEP_COMMAND_THRESHOLD])
      (by decide) (by decide) (by decide)
  · exact (track_trajectory_gains_before_validation
      ⟨⟨10, 1 / 2⟩, true, true, 0, 0, 0, 0⟩ ⟨0, 0, 0, 0, 0⟩ 1 0 none none
      "bogus" [] (fun _ => none) rfl rfl).2
      (by norm_num [STEP_COMMAND_THRESHOLD])

/-- Modelled from the spec: outcome of the v4.2 step-convergence sub-mode of
track_trajectory, whose source is absent from src (only the superseded v3.1
single-shot step is present); converged carries the tick of convergence,
convergenceTimeout is the reported, non-fatal convergence failure. -/
inductive StepOutcome where
  | converged : ℕ → StepOutcome
  | convergenceTimeout : StepOutcome
deriving DecidableEq, Repr

/-- Modelled from the spec: outcome of v4.2 track_trajectory; the
trajectory-following branch (duration above the threshold) is abstracted as
a single constructor since claim C1 concerns only the step branch. -/
inductive TrackOutcome where
  | step : StepOutcome → TrackOutcome
  | trajectoryMode : TrackOutcome
deriving DecidableEq, Repr

/-- Modelled from the spec: the bounded step-convergence loop of v4.2
track_trajectory. Each tick writes the goal position, reads feedback from
the oracle, and checks whether the position error is inside the tolerance;
it returns at the first converging tick, or reports a timeout after the
configured number of ticks. -/
def stepConvergenceLoop (goal tol : ℚ) (reads : ℕ → Feedback) :
    ℕ → ℕ → StepOutcome
  | 0, _ => .convergenceTimeout
  | Nat.succ fuel, i =>
      if |(reads i).position - goal| < tol then .converged i
      else stepConvergenceLoop goal tol reads fuel (i + 1)

/-- Modelled from the spec: v4.2 track_trajectory, restricted to the
dispatch between the step-convergence sub-mode and the (abstracted)
trajectory-following mode, behind the not-enabled guard. -/
def track_trajectory_v42 (m : MotorState) (goal duration tol : ℚ)
    (timeoutTicks : ℕ) (reads : ℕ → Feedback) :
    Except MotorError TrackOutcome :=
  if m.isEnabled && m.hasManager then
    if duration ≤ STEP_COMMAND_THRESHOLD then
      .ok (.step (stepConvergenceLoop goal tol reads timeoutTicks 0))
    else .ok .trajectoryMode
  else .error .notEnabled

/-- Characterization of stepConvergenceLoop: a converged result happens at
the first in-tolerance tick within the fuel window, and a timeout means no
tick in the window was in tolerance. -/
theorem stepConvergenceLoop_spec (goal tol : ℚ) (reads : ℕ → Feedback) :
    ∀ fuel i,
      (∀ k, stepConvergenceLoop goal tol reads fuel i = .converged k →
        i ≤ k ∧ k < i + fuel ∧ |(reads k).position - goal| < tol ∧
          ∀ j, i ≤ j → j < k → ¬|(reads j).position - goal| < tol) ∧
      (stepConvergenceLoop goal tol reads fuel i = .convergenceTimeout →
        ∀ j, i ≤ j → j < i + fuel → ¬|(reads j).position - goal| < tol) := by
  intro fuel
  induction fuel with
  | zero =>
      intro i
      constructor
      · intro k hk
        simp [stepConvergenceLoop] at hk
      · intro _ j hij hj
        omega
  | succ n ih =>
      intro i
      constructor
      · intro k hk
        by_cases hc : |(reads i).position - goal| < tol
        · simp [stepConvergenceLoop, hc] at hk
          subst hk
          exact ⟨le_refl i, by omega, hc, fun j hij hj => absurd hij (by omega)⟩
        · simp [stepConvergenceLoop, hc] at hk
          obtain ⟨h1, h2, h3, h4⟩ := (ih (i + 1)).1 k hk
          refine ⟨by omega, by omega, h3, ?_⟩
          intro j hij hj
          rcases eq_or_lt_of_le hij with rfl | hlt
          · exact hc
          · exact h4 j (by omega) hj
      · intro hk j hij hj
        by_cases hc : |(reads i).position - goal| < tol
        · simp [stepConvergenceLoop, hc] at hk
        · simp [stepConvergenceLoop, hc] at hk
          rcases eq_or_lt_of_le hij with rfl | hlt
          · exact hc
          · exact (ih (i + 1)).2 hk j (by omega) (by omega)

/-- Claim C1: for every powered session, goal and duration at or below the
step threshold, v4.2 track_trajectory enters the step sub-mode and returns
normally: either converged at the first tick whose feedback position is
within tolerance of the goal, or, when no tick within the timeout window
converges, with the reported (non-fatal) convergence timeout. -/
theorem track_trajectory_step_convergence (m : MotorState)
    (goal duration tol : ℚ) (timeoutTicks : ℕ) (reads : ℕ → Feedback)
    (hEn : m.isEnabled = true) (hMgr : m.hasManager = true)
    (hdur : duration ≤ STEP_COMMAND_THRESHOLD) :
    ∃ out : StepOutcome,
      track_trajectory_v42 m goal duration tol timeoutTicks reads =
        .ok (.step out) ∧
      (∀ k, out = .converged k →
        k < timeoutTicks ∧ |(reads k).position - goal| < tol ∧
          ∀ j < k, ¬|(reads j).position - goal| < tol) ∧
      (out = .convergenceTimeout →
        ∀ j < timeoutTicks, ¬|(reads j).position - goal| < tol) := by
  refine ⟨stepConvergenceLoop goal tol reads timeoutTicks 0, ?_, ?_, ?_⟩
  · simp [track_trajectory_v42, hEn, hMgr, hdur]
  · intro k hk
    obtain ⟨_, h2, h3, h4⟩ :=
      (stepConvergenceLoop_spec goal tol reads timeoutTicks 0).1 k hk
    exact ⟨by omega, h3, fun j hj => h4 j (Nat.zero_le j) hj⟩
  · intro hk j hj
    exact (stepConvergenceLoop_spec goal tol reads timeoutTicks 0).2 hk j
      (Nat.zero_le j) (by omega)

/-- Closed instance of track_trajectory_step_convergence: a goal reachable
at the first tick converges immediately. -/
theorem track_trajectory_step_convergence_inst :
    ∃ out : StepOutcome,
      track_trajectory_v42 ⟨⟨10, 1 / 2⟩, true, true, 0, 0, 0, 0⟩ 1 0 (1 / 10) 3
          (fun _ => ⟨1, 0, 0, 0⟩) = .ok (.step out) ∧
      (∀ k, out = .converged k →
        k < 3 ∧ |((fun _ => (⟨1, 0, 0, 0⟩ : Feedback)) k).position - 1| < 1 / 10 ∧
          ∀ j < k,
            ¬|((fun _ => (⟨1, 0, 0, 0⟩ : Feedback)) j).position - 1| < 1 / 10) ∧
      (out = .convergenceTimeout →
        ∀ j < 3,
          ¬|((fun _ => (⟨1, 0, 0, 0⟩ : Feedback)) j).position - 1| < 1 / 10) :=
  track_trajectory_step_convergence ⟨⟨10, 1 / 2⟩, true, true, 0, 0, 0, 0⟩ 1 0
    (1 / 10) 3 (fun _ => ⟨1, 0, 0, 0⟩) rfl rfl
    (by norm_num [STEP_COMMAND_THRESHOLD])

/-- Python float modulo: a % b = a - b * floor (a / b). -/
noncomputable def pymod (a b : ℝ) : ℝ := a - b * ⌊a / b⌋

/-- smooth_transition from demos/demo_ergo_test.py: cosine-blended dual-zone
torque profile over the crank angle, with transition windows of width zone
centered at pi and at 0 (equivalently 2 pi). -/
noncomputable def smooth_transition (angle tAssist tResist zone : ℝ) : ℝ :=
  let half_zone := zone / 2
  let a := pymod angle (2 * Real.pi)
  if Real.pi - half_zone ≤ a ∧ a ≤ Real.pi + half_zone then
    let frac := (a - (Real.pi - half_zone)) / zone
    let cosine := (1 - Real.cos (Real.pi * frac)) / 2
    tAssist * (1 - cosine) + tResist * cosine
  else
    let wrapped := if a ≤ Real.pi then a else a - 2 * Real.pi
    if |wrapped| ≤ half_zone then
      let frac := (wrapped + half_zone) / zone
      let cosine := (1 - Real.cos (Real.pi * frac)) / 2
      tResist * (1 - cosine) + tAssist * cosine
    else if a < Real.pi then tAssist else tResist

/-- A convex combination with weight c in [0, 1] lies between min and max. -/
theorem convex_mem (x y c : ℝ) (h0 : 0 ≤ c) (h1 : c ≤ 1) :
    min x y ≤ x * (1 - c) + y * c ∧ x * (1 - c) + y * c ≤ max x y := by
  constructor <;> rcases le_total x y with h | h <;>
    simp [min_def, max_def, h] <;> nlinarith

/-- The half-cosine ease weight lies in [0, 1]. -/
theorem cosine_weight_mem (u : ℝ) :
    0 ≤ (1 - Real.cos u) / 2 ∧ (1 - Real.cos u) / 2 ≤ 1 := by
  constructor <;> nlinarith [Real.neg_one_le_cos u, Real.cos_le_one u]

/-- Claim C4: for every assist and resist torque, zone width strictly
between 0 and pi, and every raw angle, the torque profile output lies in
the closed interval from min(Ta, Tr) to max(Ta, Tr). -/
theorem smooth_transition_bounded (Ta Tr Z θ : ℝ) (h0 : 0 < Z)
    (hπ : Z < Real.pi) :
    min Ta Tr ≤ smooth_transition θ Ta Tr Z ∧
      smooth_transition θ Ta Tr Z ≤ max Ta Tr := by
  simp only [smooth_transition]
  split_ifs
  all_goals first
    | exact convex_mem Ta Tr _ (cosine_weight_mem _).1 (cosine_weight_mem _).2
    | exact min_comm Tr Ta ▸ max_comm Tr Ta ▸
        convex_mem Tr Ta _ (cosine_weight_mem _).1 (cosine_weight_mem _).2
    | exact ⟨min_le_left Ta Tr, le_max_left Ta Tr⟩
    | exact ⟨min_le_right Ta Tr, le_max_right Ta Tr⟩

/-- Closed instance of smooth_transition_bounded at the spec scenario
angle pi/2, Ta = 15, Tr = -5, Z = 0.349. -/
theorem smooth_transition_bounded_inst :
    min (15 : ℝ) (-5) ≤ smooth_transition (Real.pi / 2) 15 (-5) 0.349 ∧
      smooth_transition (Real.pi / 2) 15 (-5) 0.349 ≤ max (15 : ℝ) (-5) :=
  smooth_transition_bounded 15 (-5) 0.349 (Real.pi / 2) (by norm_num)
    (by nlinarith [Real.pi_gt_three])

/-- Closed-form blend weight: +1 deep in the assist half, -1 deep in the
resist half, a half-cosine ease across both transition windows. Written as
a composition of everywhere-continuous functions of sin of the angle. -/
noncomputable def blendWeight (Z x : ℝ) : ℝ :=
  Real.sin (Real.pi / Z * max (-(Z / 2)) (min (Real.arcsin x) (Z / 2)))

/-- Closed form of the torque profile as a function of the raw angle. -/
noncomputable def blendedTorque (tAssist tResist Z θ : ℝ) : ℝ :=
  tAssist * ((1 + blendWeight Z (Real.sin θ)) / 2) +
    tResist * ((1 - blendWeight Z (Real.sin θ)) / 2)

theorem pymod_nonneg (a b : ℝ) (hb : 0 < b) : 0 ≤ pymod a b := by
  have h := Int.sub_floor_div_mul_nonneg a hb
  rw [pymod]
  linarith [h, mul_comm b (⌊a / b⌋ : ℝ)]

theorem pymod_lt (a b : ℝ) (hb : 0 < b) : pymod a b < b := by
  have h := Int.sub_floor_div_mul_lt a hb
  rw [pymod]
  linarith [h, mul_comm b (⌊a / b⌋ : ℝ)]

theorem sin_pymod_two_pi (θ : ℝ) :
    Real.sin (pymod θ (2 * Real.pi)) = Real.sin θ := by
  rw [pymod, mul_comm (2 * Real.pi) ((⌊θ / (2 * Real.pi)⌋ : ℤ) : ℝ)]
  exact Real.sin_sub_int_mul_two_pi θ _

/-- Inside a window the blend weight is the cosine ease of the offset. -/
theorem blendWeight_of_abs_le (Z u : ℝ) (h0 : 0 < Z) (hπ : Z < Real.pi)
    (hu : |u| ≤ Z / 2) :
    blendWeight Z (Real.sin u) = Real.sin (Real.pi / Z * u) := by
  obtain ⟨hu1, hu2⟩ := abs_le.mp hu
  have harc : Real.arcsin (Real.sin u) = u :=
    Real.arcsin_sin (by linarith) (by linarith)
  rw [blendWeight, harc, min_eq_left hu2, max_eq_right hu1]

/-- Above the upper window edge value of sin, the blend weight is 1. -/
theorem blendWeight_eq_one (Z x : ℝ) (h0 : 0 < Z) (hπ : Z < Real.pi)
    (hx : Real.sin (Z / 2) ≤ x) : blendWeight Z x = 1 := by
  have harc : Real.arcsin (Real.sin (Z / 2)) = Z / 2 :=
    Real.arcsin_sin (by linarith) (by linarith)
  have hge : Z / 2 ≤ Real.arcsin x := harc ▸ Real.monotone_arcsin hx
  rw [blendWeight, min_eq_right hge, max_eq_right (by linarith : -(Z / 2) ≤ Z / 2),
    show Real.pi / Z * (Z / 2) = Real.pi / 2 by field_simp,
    Real.sin_pi_div_two]

/-- Below the lower window edge value of sin, the blend weight is -1. -/
theorem blendWeight_eq_neg_one (Z x : ℝ) (h0 : 0 < Z) (hπ : Z < Real.pi)
    (hx : x ≤ -Real.sin (Z / 2)) : blendWeight Z x = -1 := by
  have harc : Real.arcsin (-Real.sin (Z / 2)) = -(Z / 2) := by
    rw [Real.arcsin_neg, Real.arcsin_sin (by linarith) (by linarith)]
  have hle : Real.arcsin x ≤ -(Z / 2) := harc ▸ Real.monotone_arcsin hx
  rw [blendWeight, min_eq_left (by linarith : Real.arcsin x ≤ Z / 2),
    max_eq_left hle,
    show Real.pi / Z * -(Z / 2) = -(Real.pi / 2) by field_simp; ring,
    Real.sin_neg, Real.sin_pi_div_two]

/-- On the plateau between the windows, sin is at least sin of the half
zone width. -/
theorem sin_ge_sin_half_zone (Z a : ℝ) (h0 : 0 < Z) (hπ : Z < Real.pi)
    (h1 : Z / 2 ≤ a) (h2 : a ≤ Real.pi - Z / 2) :
    Real.sin (Z / 2) ≤ Real.sin a := by
  have hpi := Real.pi_pos
  rcases le_total a (Real.pi / 2) with h | h
  · exact Real.strictMonoOn_sin.monotoneOn
      (Set.mem_Icc.mpr ⟨by linarith, by linarith⟩)
      (Set.mem_Icc.mpr ⟨by linarith, h⟩) h1
  · rw [← Real.sin_pi_sub a]
    exact Real.strictMonoOn_sin.monotoneOn
      (Set.mem_Icc.mpr ⟨by linarith, by linarith⟩)
      (Set.mem_Icc.mpr ⟨by linarith, by linarith⟩) (by linarith)

/-- Pointwise identity: the source torque profile equals the closed-form
blend, for every raw angle and every zone width in (0, pi). -/
theorem smooth_transition_eq_blend (θ tAssist tResist Z : ℝ) (h0 : 0 < Z)
    (hπ : Z < Real.pi) :
    smooth_transition θ tAssist tResist Z = blendedTorque tAssist tResist Z θ := by
  have hpi := Real.pi_pos
  have h2pi : (0 : ℝ) < 2 * Real.pi := by linarith
  simp only [smooth_transition]
  set a := pymod θ (2 * Real.pi) with ha
  have ha0 : 0 ≤ a := pymod_nonneg θ _ h2pi
  have ha2 : a < 2 * Real.pi := pymod_lt θ _ h2pi
  have hsin : Real.sin a = Real.sin θ := sin_pymod_two_pi θ
  by_cases hw1 : Real.pi - Z / 2 ≤ a ∧ a ≤ Real.pi + Z / 2
  · rw [if_pos hw1]
    have hu : |Real.pi - a| ≤ Z / 2 :=
      abs_le.mpr ⟨by linarith [hw1.2], by linarith [hw1.1]⟩
    have hbw : blendWeight Z (Real.sin θ) =
        Real.sin (Real.pi / Z * (Real.pi - a)) := by
      have hpisub : Real.sin a = Real.sin (Real.pi - (Real.pi - a)) := by
        rw [show Real.pi - (Real.pi - a) = a by ring]
      rw [← hsin, hpisub, Real.sin_pi_sub]
      exact blendWeight_of_abs_le Z (Real.pi - a) h0 hπ hu
    have hcos : Real.cos (Real.pi * ((a - (Real.pi - Z / 2)) / Z)) =
        Real.sin (Real.pi / Z * (Real.pi - a)) := by
      rw [show Real.pi * ((a - (Real.pi - Z / 2)) / Z) =
          Real.pi / 2 - Real.pi / Z * (Real.pi - a) by field_simp; ring]
      exact Real.cos_pi_div_two_sub _
    rw [blendedTorque, hbw, hcos]
    ring
  · rw [if_neg hw1]
    push_neg at hw1
    by_cases hap : a ≤ Real.pi
    · rw [if_pos hap]
      by_cases hw2 : |a| ≤ Z / 2
      · rw [if_pos hw2]
        have hbw : blendWeight Z (Real.sin θ) = Real.sin (Real.pi / Z * a) := by
          rw [← hsin]
          exact blendWeight_of_abs_le Z a h0 hπ hw2
        have hcos : Real.cos (Real.pi * ((a + Z / 2) / Z)) =
            -Real.sin (Real.pi / Z * a) := by
          rw [show Real.pi * ((a + Z / 2) / Z) =
              Real.pi / Z * a + Real.pi / 2 by field_simp; ring]
          exact Real.cos_add_pi_div_two _
        rw [blendedTorque, hbw, hcos]
        ring
      · rw [if_neg hw2]
        have haZ : Z / 2 < a := by
          rcases abs_le.mpr.mt hw2 with h
          rw [abs_of_nonneg ha0] at hw2
          exact lt_of_not_le hw2
        have haπ : a < Real.pi - Z / 2 := by
          by_contra hcon
          push_neg at hcon
          exact absurd (hw1 hcon) (not_lt.mpr (by linarith))
        rw [if_pos (by linarith : a < Real.pi)]
        have hbw : blendWeight Z (Real.sin θ) = 1 := by
          rw [← hsin]
          exact blendWeight_eq_one Z _ h0 hπ
            (sin_ge_sin_half_zone Z a h0 hπ haZ.le haπ.le)
        rw [blendedTorque, hbw]
        ring
    · rw [if_neg hap]
      push_neg at hap
      have hgt : Real.pi + Z / 2 < a := hw1 (by linarith)
      by_cases hw2 : |a - 2 * Real.pi| ≤ Z / 2
      · rw [if_pos hw2]
        have hbw : blendWeight Z (Real.sin θ) =
            Real.sin (Real.pi / Z * (a - 2 * Real.pi)) := by
          rw [← hsin, ← Real.sin_sub_two_pi a]
          exact blendWeight_of_abs_le Z (a - 2 * Real.pi) h0 hπ hw2
        have hcos : Real.cos (Real.pi * ((a - 2 * Real.pi + Z / 2) / Z)) =
            -Real.sin (Real.pi / Z * (a - 2 * Real.pi)) := by
          rw [show Real.pi * ((a - 2 * Real.pi + Z / 2) / Z) =
              Real.pi / Z * (a - 2 * Real.pi) + Real.pi / 2 by field_simp; ring]
          exact Real.cos_add_pi_div_two _
        rw [blendedTorque, hbw, hcos]
        ring
      · rw [if_neg hw2, if_neg (not_lt.mpr hap.le)]
        have hlt : a < 2 * Real.pi - Z / 2 := by
          rw [abs_sub_comm, abs_of_nonneg (by linarith : (0:ℝ) ≤ 2 * Real.pi - a)]
            at hw2
          linarith [lt_of_not_le hw2]
        have hsina : Real.sin a ≤ -Real.sin (Z / 2) := by
          have hw : Real.sin (Z / 2) ≤ Real.sin (a - Real.pi) :=
            sin_ge_sin_half_zone Z (a - Real.pi) h0 hπ (by linarith) (by linarith)
          have : Real.sin a = -Real.sin (a - Real.pi) := by
            rw [show a = a - Real.pi + Real.pi by ring, Real.sin_add_pi]
            ring_nf
          linarith [this ▸ neg_le_neg hw]
        have hbw : blendWeight Z (Real.sin θ) = -1 := by
          rw [← hsin]
          exact blendWeight_eq_neg_one Z _ h0 hπ hsina
        rw [blendedTorque, hbw]
        ring

/-- The smooth interior branch of the blend weight. -/
noncomputable def blendCore (Z x : ℝ) : ℝ :=
  Real.sin (Real.pi / Z * Real.arcsin x)

theorem blendCore_differentiableAt (Z x : ℝ) (h1 : x ≠ -1) (h2 : x ≠ 1) :
    DifferentiableAt ℝ (blendCore Z) x := by
  have harc : DifferentiableAt ℝ Real.arcsin x :=
    Real.differentiableAt_arcsin.mpr ⟨h1, h2⟩
  exact Real.differentiable_sin.differentiableAt.comp x
    (harc.const_mul (Real.pi / Z))

/-- The derivative of the interior branch vanishes at the window edge,
because the outer half-cosine ease has zero slope there. -/
theorem blendCore_hasDerivAt_edge (Z x : ℝ) (h1 : x ≠ -1) (h2 : x ≠ 1)
    (hZ : Z ≠ 0) (hedge : Real.arcsin x = Z / 2 ∨ Real.arcsin x = -(Z / 2)) :
    HasDerivAt (blendCore Z) 0 x := by
  have harc := Real.hasDerivAt_arcsin h1 h2
  have hmul := harc.const_mul (Real.pi / Z)
  have hsin := Real.hasDerivAt_sin (Real.pi / Z * Real.arcsin x)
  have hcomp := hsin.comp x hmul
  have hcos : Real.cos (Real.pi / Z * Real.arcsin x) = 0 := by
    rcases hedge with h | h
    · rw [h, show Real.pi / Z * (Z / 2) = Real.pi / 2 by field_simp,
        Real.cos_pi_div_two]
    · rw [h, show Real.pi / Z * -(Z / 2) = -(Real.pi / 2) by field_simp; ring,
        Real.cos_neg, Real.cos_pi_div_two]
  have : Real.cos (Real.pi / Z * Real.arcsin x) *
      (Real.pi / Z * (1 / Real.sqrt (1 - x ^ 2))) = 0 := by
    rw [hcos, zero_mul]
  exact this ▸ hcomp

/-- The blend weight agrees with the interior branch strictly inside the
windows. -/
theorem blendWeight_eq_core (Z y : ℝ) (h1 : -(Z / 2) ≤ Real.arcsin y)
    (h2 : Real.arcsin y ≤ Z / 2) : blendWeight Z y = blendCore Z y := by
  rw [blendWeight, blendCore, min_eq_left h2, max_eq_right h1]

/-- The blend weight, as a function of sin of the angle, is differentiable
everywhere on the reals; the clamp kinks are absorbed by the zero slope of
the cosine ease at the window edges. -/
theorem differentiable_blendWeight (Z : ℝ) (h0 : 0 < Z) (hπ : Z < Real.pi) :
    Differentiable ℝ (blendWeight Z) := by
  have hpi := Real.pi_pos
  have harcx0 : Real.arcsin (Real.sin (Z / 2)) = Z / 2 :=
    Real.arcsin_sin (by linarith) (by linarith)
  have harcnx0 : Real.arcsin (-Real.sin (Z / 2)) = -(Z / 2) := by
    rw [Real.arcsin_neg, harcx0]
  set x₀ := Real.sin (Z / 2) with hx₀
  have hx0pos : 0 < x₀ := Real.sin_pos_of_pos_of_lt_pi (by linarith) (by linarith)
  have hx0lt : x₀ < 1 := by
    have := Real.strictMonoOn_sin
      (Set.mem_Icc.mpr ⟨by linarith, by linarith⟩)
      (Set.mem_Icc.mpr ⟨by linarith, le_refl _⟩) (by linarith : Z / 2 < Real.pi / 2)
    rwa [Real.sin_pi_div_two] at this
  intro x
  rcases lt_trichotomy x x₀ with hlt | heq | hgt
  · rcases lt_trichotomy x (-x₀) with hlt2 | heq2 | hgt2
    · -- constant -1 below the lower edge
      have hmem : Set.Iio (-x₀) ∈ nhds x := Iio_mem_nhds hlt2
      have heqn : blendWeight Z =ᶠ[nhds x] fun _ => (-1 : ℝ) :=
        Filter.eventuallyEq_of_mem hmem fun y hy =>
          blendWeight_eq_neg_one Z y h0 hπ (le_of_lt hy)
      exact (differentiableAt_const (-1 : ℝ)).congr_of_eventuallyEq heqn
    · -- lower edge: zero one-sided derivatives on both sides
      subst heq2
      have hne1 : -x₀ ≠ -1 := by intro h; rw [neg_inj] at h; linarith
      have hne2 : -x₀ ≠ 1 := by intro h; linarith
      have hleft : HasDerivWithinAt (blendWeight Z) 0 (Set.Iic (-x₀)) (-x₀) := by
        refine ((hasDerivAt_const (-x₀) (-1 : ℝ)).hasDerivWithinAt).congr
          (fun y hy => ?_) ?_
        · exact blendWeight_eq_neg_one Z y h0 hπ hy
        · exact blendWeight_eq_neg_one Z (-x₀) h0 hπ (le_refl _)
      have hright : HasDerivWithinAt (blendWeight Z) 0 (Set.Ici (-x₀)) (-x₀) := by
        have hcore := (blendCore_hasDerivAt_edge Z (-x₀) hne1 hne2 h0.ne'
          (Or.inr harcnx0)).hasDerivWithinAt (s := Set.Ici (-x₀))
        refine hcore.congr_of_eventuallyEq ?_ ?_
        · have hV : {y : ℝ | Real.arcsin y < Z / 2} ∈ nhds (-x₀) := by
            refine (Real.continuous_arcsin.isOpen_preimage (Set.Iio (Z / 2))
              isOpen_Iio).mem_nhds ?_
            simp only [Set.mem_preimage, Set.mem_Iio, harcnx0]
            linarith
          filter_upwards [nhdsWithin_le_nhds hV, self_mem_nhdsWithin]
            with y hy1 hy2
          have hge : -(Z / 2) ≤ Real.arcsin y := by
            have := Real.monotone_arcsin hy2
            rw [harcnx0] at this
            exact this
          exact blendWeight_eq_core Z y hge (le_of_lt hy1)
        · exact blendWeight_eq_core Z (-x₀) (le_of_eq harcnx0.symm)
            (by rw [harcnx0]; linarith)
      have huniv := hleft.union hright
      rw [Set.Iic_union_Ici] at huniv
      exact (hasDerivWithinAt_univ.mp huniv).differentiableAt
    · -- interior: equal to the smooth branch near x
      have hS : IsOpen {y : ℝ | -(Z / 2) < Real.arcsin y ∧ Real.arcsin y < Z / 2} := by
        have := (Real.continuous_arcsin.isOpen_preimage (Set.Ioo (-(Z / 2)) (Z / 2))
          isOpen_Ioo)
        simpa [Set.preimage, Set.mem_Ioo] using this
      have hxS : x ∈ {y : ℝ | -(Z / 2) < Real.arcsin y ∧ Real.arcsin y < Z / 2} := by
        constructor
        · have := Real.strictMonoOn_arcsin
            (Set.mem_Icc.mpr ⟨by linarith, by linarith⟩)
            (Set.mem_Icc.mpr ⟨by linarith, by linarith⟩) hgt2
          rwa [harcnx0] at this
        · have := Real.strictMonoOn_arcsin
            (Set.mem_Icc.mpr ⟨by linarith, by linarith⟩)
            (Set.mem_Icc.mpr ⟨by linarith, by linarith⟩) hlt
          rwa [harcx0] at this
      have heqn : blendWeight Z =ᶠ[nhds x] blendCore Z :=
        Filter.eventuallyEq_of_mem (hS.mem_nhds hxS) fun y hy =>
          blendWeight_eq_core Z y (le_of_lt hy.1) (le_of_lt hy.2)
      exact (blendCore_differentiableAt Z x (by linarith) (by linarith)
        ).congr_of_eventuallyEq heqn
  · -- upper edge
    subst heq
    have hne1 : x₀ ≠ -1 := by intro h; linarith
    have hne2 : x₀ ≠ 1 := hx0lt.ne
    have hright : HasDerivWithinAt (blendWeight Z) 0 (Set.Ici x₀) x₀ := by
      refine ((hasDerivAt_const x₀ (1 : ℝ)).hasDerivWithinAt).congr
        (fun y hy => ?_) ?_
      · exact blendWeight_eq_one Z y h0 hπ hy
      · exact blendWeight_eq_one Z x₀ h0 hπ (le_refl _)
    have hleft : HasDerivWithinAt (blendWeight Z) 0 (Set.Iic x₀) x₀ := by
      have hcore := (blendCore_hasDerivAt_edge Z x₀ hne1 hne2 h0.ne'
        (Or.inl harcx0)).hasDerivWithinAt (s := Set.Iic x₀)
      refine hcore.congr_of_eventuallyEq ?_ ?_
      · have hV : {y : ℝ | -(Z / 2) < Real.arcsin y} ∈ nhds x₀ := by
          refine (Real.continuous_arcsin.isOpen_preimage (Set.Ioi (-(Z / 2)))
            isOpen_Ioi).mem_nhds ?_
          simp only [Set.mem_preimage, Set.mem_Ioi, harcx0]
          linarith
        filter_upwards [nhdsWithin_le_nhds hV, self_mem_nhdsWithin]
          with y hy1 hy2
        have hle : Real.arcsin y ≤ Z / 2 := by
          have := Real.monotone_arcsin hy2
          rw [harcx0] at this
          exact this
        exact blendWeight_eq_core Z y (le_of_lt hy1) hle
      · exact blendWeight_eq_core Z x₀ (by rw [harcx0]; linarith)
          (le_of_eq harcx0)
    have huniv := hleft.union hright
    rw [Set.Iic_union_Ici] at huniv
    exact (hasDerivWithinAt_univ.mp huniv).differentiableAt
  · -- constant 1 above the upper edge
    have hmem : Set.Ioi x₀ ∈ nhds x := Ioi_mem_nhds hgt
    have heqn : blendWeight Z =ᶠ[nhds x] fun _ => (1 : ℝ) :=
      Filter.eventuallyEq_of_mem hmem fun y hy =>
        blendWeight_eq_one Z y h0 hπ (le_of_lt hy)
    exact (differentiableAt_const (1 : ℝ)).congr_of_eventuallyEq heqn

/-- The closed-form torque profile is differentiable everywhere. -/
theorem differentiable_blendedTorque (Ta Tr Z : ℝ) (h0 : 0 < Z)
    (hπ : Z < Real.pi) :
    Differentiable ℝ (fun θ => blendedTorque Ta Tr Z θ) := by
  have h1 : Differentiable ℝ (fun θ => blendWeight Z (Real.sin θ)) :=
    (differentiable_blendWeight Z h0 hπ).comp Real.differentiable_sin
  unfold blendedTorque
  exact (((h1.const_add 1).div_const 2).const_mul Ta).add
    ((((h1.neg.const_add 1).div_const 2).const_mul Tr))

/-- Claim C3: for every assist and resist torque and zone width in (0, pi),
the torque profile, as a function of the raw angle, is continuous
everywhere (including the transition-window edges and the 0 / 2 pi
wraparound) and differentiable at the four transition-window boundaries. -/
theorem smooth_transition_continuous_differentiable (Ta Tr Z : ℝ)
    (h0 : 0 < Z) (hπ : Z < Real.pi) :
    Continuous (fun θ => smooth_transition θ Ta Tr Z) ∧
    ∀ θ : ℝ, (θ = Real.pi - Z / 2 ∨ θ = Real.pi + Z / 2 ∨ θ = Z / 2 ∨
        θ = 2 * Real.pi - Z / 2) →
      DifferentiableAt ℝ (fun θ => smooth_transition θ Ta Tr Z) θ := by
  have hfun : (fun θ => smooth_transition θ Ta Tr Z) =
      fun θ => blendedTorque Ta Tr Z θ :=
    funext fun θ => smooth_transition_eq_blend θ Ta Tr Z h0 hπ
  have hd := differentiable_blendedTorque Ta Tr Z h0 hπ
  rw [hfun]
  exact ⟨hd.continuous, fun θ _ => hd θ⟩

/-- Closed instance of smooth_transition_continuous_differentiable at
Ta = 15, Tr = -5, Z = 1. -/
theorem smooth_transition_continuous_differentiable_inst :
    Continuous (fun θ => smooth_transition θ 15 (-5) 1) ∧
    ∀ θ : ℝ, (θ = Real.pi - 1 / 2 ∨ θ = Real.pi + 1 / 2 ∨ θ = 1 / 2 ∨
        θ = 2 * Real.pi - 1 / 2) →
      DifferentiableAt ℝ (fun θ => smooth_transition θ 15 (-5) 1) θ :=
  smooth_transition_continuous_differentiable 15 (-5) 1 (by norm_num)
    (lt_trans (by norm_num) Real.pi_gt_three)

end TMotor
